import Mathlib

/-!
Verification development for the attraction-biased sphere-packing engine
(`pseudo_electrostatic_packing` in `porespy/generators/__electrostatic__.py`).

The source operates on N-dimensional numpy arrays.  We embed a voxel grid as a
function from coordinates (`List Nat`, one entry per axis) to values, together
with a `shape : List Nat`; `allCoords shape` enumerates the voxels in numpy's
row-major (C) order, the order `np.where` reports indices in.

Euclidean distances appear only through order comparisons (the `edt` distance
transform feeding thresholds and `argsort`), so we represent a distance by its
exact squared value (a `Nat`): `sqrt s1 <= sqrt s2` iff `s1 <= s2`, and
`sqrt s <= t` for an integer threshold `t >= 0` iff `s <= t^2`.  This is an
exact order-embedding of the real comparisons the source performs.  The
priority field additionally stores the literal float `1000.0` written by
`insert_sphere(dt, ..., v=1000)` and the value `+inf` that `edt` produces when
no opposite-label voxel exists; `DVal` tags the three kinds and `key` maps
them into `WithTop Nat` compatibly with that order-embedding
(`key (DVal.dist s) = s`, `key DVal.sent = 1000^2`).
-/

namespace Porespy

/-- A voxel coordinate: one index per axis. -/
abbrev Coord := List Nat

/-- Row-major (C-order) enumeration of all coordinates of a grid of the given
shape, matching the order in which `np.where` reports indices. -/
def allCoords : List Nat → List Coord
  | [] => [[]]
  | n :: rest => ((List.range n).map (fun i => (allCoords rest).map (fun c => i :: c))).flatten

/-- Absolute difference of two axis indices. -/
def absDiff (a b : Nat) : Nat := (a - b) + (b - a)

/-- Exact squared Euclidean distance between two coordinates
(`sum_i (a_i - b_i)^2`, with `|a_i - b_i|` as `absDiff` since axis indices
are naturals). -/
def sqDist (a b : Coord) : Nat :=
  ((a.zip b).map (fun p => absDiff p.1 p.2 ^ 2)).sum

/-- Membership of voxel `x` in the closed Euclidean ball of (integer) radius
`r` around `c`: `dist x c <= r`.  For `r < 0` the ball is empty; for `r >= 0`
the real comparison `dist <= r` is exactly `sqDist <= r^2`. -/
def inBall (x c : Coord) (r : Int) : Bool :=
  decide (0 ≤ r ∧ sqDist x c ≤ r.toNat ^ 2)

/-- Modelled from the spec: ball rasterization (`porespy.tools.insert_sphere`,
not under `src/`) — "given a field, a center coordinate, a radius, and a fill
value, returns the field with every voxel whose distance to center is ≤ radius
set to that value, correctly clipped at array bounds". -/
def insert_sphere {α : Type} (f : Coord → α) (c : Coord) (r : Int) (v : α) : Coord → α :=
  fun x => if inBall x c r then v else f x

/-- Squared distance from `x` to the nearest coordinate in the list (`none`
when the list is empty, the `+inf` case of the distance transform). -/
def minDistSq (x : Coord) : List Coord → Option Nat
  | [] => none
  | y :: ys =>
    match minDistSq x ys with
    | none => some (sqDist x y)
    | some m => some (min (sqDist x y) m)

/-- The exact Euclidean distance transform `edt(im)` of a boolean grid,
as squared distances: the distance from each voxel to the nearest voxel where
`im` is false (`some 0` on such voxels themselves, `none` i.e. `+inf` when the
whole grid is true). -/
def edtSq (shape : List Nat) (im : Coord → Bool) : Coord → Option Nat :=
  fun x => minDistSq x ((allCoords shape).filter (fun y => !im y))

/-- A value of the evolving priority field `dt`: a real distance (stored
squared), the `+inf` produced by `edt` on an all-true grid, or the literal
`1000.0` written by `insert_sphere(dt, c=cen, r=r, v=1000)`. -/
inductive DVal : Type where
  | dist (s : Nat) : DVal
  | infin : DVal
  | sent : DVal
deriving DecidableEq

/-- Order key of a priority-field value, in squared-distance scale: real
distances map to their square, the sentinel `1000.0` to `1000^2`, `+inf` to
`⊤`.  Comparing keys is exactly comparing the float values the source
compares. -/
def key : DVal → WithTop Nat
  | DVal.dist s => (s : WithTop Nat)
  | DVal.infin => ⊤
  | DVal.sent => ((1000000 : Nat) : WithTop Nat)

/-- Whether a priority-field value is a real (non-sentinel, finite) distance. -/
def DVal.isReal : DVal → Bool
  | DVal.dist _ => true
  | _ => false

/-- Direct strict comparison of two priority-field values, the float `<` the
source's `argsort` performs (`dvalLT a b = true` iff `key a < key b`, proved
in `dvalLT_iff_key_lt`). -/
def dvalLT : DVal → DVal → Bool
  | DVal.dist s, DVal.dist t => decide (s < t)
  | DVal.dist s, DVal.sent => decide (s < 1000000)
  | DVal.dist _, DVal.infin => true
  | DVal.sent, DVal.dist t => decide (1000000 < t)
  | DVal.sent, DVal.sent => false
  | DVal.sent, DVal.infin => true
  | DVal.infin, _ => false

/-- The initial priority field `dt = edt(sites == 0)`: squared distance from
each voxel to the nearest attraction site (`0` on sites themselves), `+inf`
when there is no site at all. -/
def initDT (shape : List Nat) (sites : Coord → Bool) : Coord → DVal :=
  fun x =>
    match minDistSq x ((allCoords shape).filter (fun y => sites y)) with
    | some s => DVal.dist s
    | none => DVal.infin

/-- Threshold test `d >= t` where `d` is a (possibly infinite) squared
distance and `t` an integer threshold: always true for `t <= 0` (distances are
nonnegative) and for `d = +inf`; otherwise `sqrt s >= t` iff `t^2 <= s`. -/
def distGE (d : Option Nat) (t : Int) : Bool :=
  if t ≤ 0 then true
  else
    match d with
    | none => true
    | some s => decide (t.toNat ^ 2 ≤ s)

/-- The initial candidate pool `sites = (sites == 0) * (dt_im >= (r - protrusion))`:
eligible voxels are the non-attraction voxels whose distance-to-background on
the original grid is at least `r - protrusion`. -/
def initPool (shape : List Nat) (im sites : Coord → Bool) (r protrusion : Int) : Coord → Bool :=
  fun x => !sites x && distGE (edtSq shape im x) (r - protrusion)

/-- The input boolean phase grid widened to an integer grid (active phase `1`,
other phase `0`) so that the inserted marker `-1` is representable.  Modelled
from the spec: the output "must widen a boolean/narrow-integer input type
rather than truncate the marker". -/
def imZ (im : Coord → Bool) : Coord → Int :=
  fun x => if im x then 1 else 0

/-- The state mutated by the packing loop: the domain grid `im`, the candidate
pool (the reassigned `sites` array of the source), the priority field `dt`,
and the list of accepted sphere centers in insertion order (implicit in the
source, recorded here for specification purposes). -/
structure PackState : Type where
  im : Coord → Int
  pool : Coord → Bool
  dt : Coord → DVal
  centers : List Coord

/-- Selection step `choice = np.argsort(dt[options])[0]; cen = options[choice]`:
an option of minimal priority.  `np.argsort`'s default sort is unstable, so
which minimum it reports among ties is a numpy implementation detail; this
embedding fixes the first minimum in enumeration order: the current best is
kept unless a strictly smaller priority appears. -/
def selectMinGo (dt : Coord → DVal) : Coord → List Coord → Coord
  | best, [] => best
  | best, x :: xs =>
    match dvalLT (dt x) (dt best) with
    | true => selectMinGo dt x xs
    | false => selectMinGo dt best xs

/-- Selection on a nonempty option list: the running minimum over the options
(`selectMinGo`), `none` on an empty pool (the caught `IndexError` of the
source). -/
def selectMin (dt : Coord → DVal) : List Coord → Option Coord
  | [] => none
  | c :: cs => some (selectMinGo dt c cs)

/-- One iteration of the packing loop with `reff = r + clearance` (the
reassigned `r` of the source): select the eligible voxel of minimal priority,
then rasterize the sphere into the domain grid (radius `reff - clearance`,
value `-1`), remove the exclusion ball (radius `2 * reff`) from the pool, and
deprioritize the ball of radius `reff` in the priority field (value `1000`).
Returns `none` when the pool is empty (the `IndexError` → `break` path). -/
def packStep (shape : List Nat) (reff clearance : Int) (s : PackState) : Option PackState :=
  match selectMin s.dt ((allCoords shape).filter s.pool) with
  | none => none
  | some cen =>
    some
      { im := insert_sphere s.im cen (reff - clearance) (-1)
        pool := insert_sphere s.pool cen (2 * reff) false
        dt := insert_sphere s.dt cen reff DVal.sent
        centers := s.centers ++ [cen] }

/-- The packing loop `for _ in range(max_iter)` with the `break` on an empty
pool: iterate `packStep` at most `n` times, stopping at the first `none`. -/
def packIter (shape : List Nat) (reff clearance : Int) : Nat → PackState → PackState
  | 0, s => s
  | n + 1, s =>
    match packStep shape reff clearance s with
    | none => s
    | some s2 => packIter shape reff clearance n s2

/-- The state the loop starts from: widened domain grid, priority field from
the attraction sites, candidate pool from the thickness threshold, no accepted
spheres. -/
def initState (shape : List Nat) (im sites : Coord → Bool) (r protrusion : Int) : PackState :=
  { im := imZ im
    pool := initPool shape im sites r protrusion
    dt := initDT shape sites
    centers := [] }

/-- The packing engine on an explicitly supplied attraction mask (the
`sites is not None` path of `pseudo_electrostatic_packing`; when `sites` is
omitted the source first derives the mask, see `derivedSites`, and then runs
this same loop).  The source returns the mutated `im`; the full final state is
exposed here so that the accepted centers and the bookkeeping fields can be
specified. -/
def pseudo_electrostatic_packing (shape : List Nat) (im sites : Coord → Bool)
    (r clearance protrusion : Int) (max_iter : Nat) : PackState :=
  packIter shape (r + clearance) clearance max_iter (initState shape im sites r protrusion)

/-- The spherical structuring neighborhood of `x` inside the grid: voxels
within Euclidean distance `r` of `x` (modelled from the spec: `ps_round`, not
under `src/`, is a "spherical structuring neighborhood of a given radius";
out-of-bounds offsets are clipped — scipy's boundary mode only affects how
edge voxels pad, interior voxels see exactly this neighborhood). -/
def neighborhood (shape : List Nat) (r : Int) (x : Coord) : List Coord :=
  (allCoords shape).filter (fun y => inBall y x r)

/-- scipy's `maximum_filter`: the maximum of the field over the structuring
neighborhood of each voxel (the footprint contains the voxel itself). -/
def maximum_filter (shape : List Nat) (r : Int) (f : Coord → Int) : Coord → Int :=
  fun x => ((neighborhood shape r x).map f).foldl max (f x)

/-- The site deriver used when no attraction mask is supplied:
`sites = (spim.maximum_filter(dt2, footprint=strel) == dt2) * im`, where `dt2`
is the smoothed distance field (the smoothing is an external floating-point
collaborator, so the field is a parameter here): a voxel is marked iff it is
in the active phase and its value equals the neighborhood maximum. -/
def derivedSites (shape : List Nat) (r : Int) (f : Coord → Int) (im : Coord → Bool) :
    Coord → Bool :=
  fun x => (maximum_filter shape r f x == f x) && im x

/-- Whether a priority-field value is below the sentinel `1000.0` (squared
scale: a real distance with square `< 1000^2`, or a non-real value). -/
def dvalSmall : DVal → Bool
  | DVal.dist t => decide (t < 1000000)
  | _ => true

/-- Whether voxel `x` is covered by a sphere of radius `r` around one of the
given centers. -/
def coveredBy (centers : List Coord) (r : Int) (x : Coord) : Bool :=
  centers.any (fun c => inBall x c r)

/-! ## Basic lemmas about the geometric primitives -/

theorem absDiff_self (a : Nat) : absDiff a a = 0 := by
  simp [absDiff]

theorem absDiff_comm (a b : Nat) : absDiff a b = absDiff b a := by
  simp [absDiff, Nat.add_comm]

theorem sqDist_self (x : Coord) : sqDist x x = 0 := by
  induction x with
  | nil => rfl
  | cons a t ih => simpa [sqDist, absDiff_self] using ih

theorem sqDist_comm (a b : Coord) : sqDist a b = sqDist b a := by
  induction a generalizing b with
  | nil => cases b <;> rfl
  | cons x xs ih =>
    cases b with
    | nil => rfl
    | cons y ys => simp [sqDist, absDiff_comm] at ih ⊢; exact ih ys

theorem inBall_self (c : Coord) (r : Int) (hr : 0 ≤ r) : inBall c c r = true := by
  simp [inBall, sqDist_self, hr]

theorem not_inBall_iff (x c : Coord) (r : Int) (hr : 0 ≤ r) :
    inBall x c r = false ↔ r.toNat ^ 2 < sqDist x c := by
  simp [inBall, hr]

theorem insert_sphere_of_inBall {α : Type} (f : Coord → α) (c : Coord) (r : Int) (v : α)
    (x : Coord) (h : inBall x c r = true) : insert_sphere f c r v x = v := by
  simp [insert_sphere, h]

theorem insert_sphere_of_not_inBall {α : Type} (f : Coord → α) (c : Coord) (r : Int) (v : α)
    (x : Coord) (h : inBall x c r = false) : insert_sphere f c r v x = f x := by
  simp [insert_sphere, h]

/-! ## Lemmas about the nearest-site distance (the distance transform) -/

theorem minDistSq_eq_none_iff (x : Coord) (l : List Coord) :
    minDistSq x l = none ↔ l = [] := by
  cases l with
  | nil => simp [minDistSq]
  | cons y ys =>
    simp only [minDistSq]
    cases minDistSq x ys <;> simp

theorem minDistSq_le_of_mem (x y : Coord) (l : List Coord) (m : Nat)
    (hy : y ∈ l) (hm : minDistSq x l = some m) : m ≤ sqDist x y := by
  induction l generalizing m with
  | nil => cases hy
  | cons z zs ih =>
    simp only [minDistSq] at hm
    rcases List.mem_cons.mp hy with h | h
    · subst h
      cases hz : minDistSq x zs with
      | none => rw [hz] at hm; simp at hm; omega
      | some k => rw [hz] at hm; simp at hm; subst hm; exact min_le_left _ _
    · cases hz : minDistSq x zs with
      | none =>
        rw [minDistSq_eq_none_iff] at hz
        subst hz; cases h
      | some k =>
        rw [hz] at hm; simp at hm; subst hm
        exact le_trans (min_le_right _ _) (ih k h hz)

theorem minDistSq_exists_mem (x : Coord) (l : List Coord) (m : Nat)
    (hm : minDistSq x l = some m) : ∃ y ∈ l, sqDist x y = m := by
  induction l generalizing m with
  | nil => simp [minDistSq] at hm
  | cons z zs ih =>
    simp only [minDistSq] at hm
    cases hz : minDistSq x zs with
    | none =>
      rw [hz] at hm; simp at hm
      exact ⟨z, List.mem_cons_self .., hm⟩
    | some k =>
      rw [hz] at hm; simp at hm
      rcases le_total (sqDist x z) k with h | h
      · rw [min_eq_left h] at hm
        exact ⟨z, List.mem_cons_self .., hm⟩
      · rw [min_eq_right h] at hm
        subst hm
        obtain ⟨y, hy, he⟩ := ih k hz
        exact ⟨y, List.mem_cons_of_mem _ hy, he⟩

theorem le_minDistSq_iff (x : Coord) (l : List Coord) (m t : Nat)
    (hm : minDistSq x l = some m) : t ≤ m ↔ ∀ y ∈ l, t ≤ sqDist x y := by
  constructor
  · intro h y hy
    exact le_trans h (minDistSq_le_of_mem x y l m hy hm)
  · intro h
    obtain ⟨y, hy, he⟩ := minDistSq_exists_mem x l m hm
    exact he ▸ h y hy

/-- The threshold test on a nearest-distance value, characterized without
mentioning the minimum: the (possibly infinite) distance from `x` to the list
is at least `t` iff `t` is nonpositive or every list element is at squared
distance at least `t^2`. -/
theorem distGE_minDistSq_iff (x : Coord) (l : List Coord) (t : Int) :
    distGE (minDistSq x l) t = true ↔ (t ≤ 0 ∨ ∀ y ∈ l, t.toNat ^ 2 ≤ sqDist x y) := by
  by_cases ht : t ≤ 0
  · simp [distGE, ht]
  · simp only [distGE, if_neg ht]
    cases hm : minDistSq x l with
    | none =>
      rw [minDistSq_eq_none_iff] at hm
      subst hm
      simp [ht]
    | some m =>
      simp only [decide_eq_true_eq]
      rw [le_minDistSq_iff x l m _ hm]
      simp [ht]

/-! ## Lemmas about the selection step -/

theorem selectMinGo_mem (dt : Coord → DVal) (best : Coord) (l : List Coord) :
    selectMinGo dt best l = best ∨ selectMinGo dt best l ∈ l := by
  induction l generalizing best with
  | nil => left; rfl
  | cons x xs ih =>
    simp only [selectMinGo]
    cases dvalLT (dt x) (dt best) with
    | true =>
      rcases ih x with h | h
      · right; rw [h]; exact List.mem_cons_self ..
      · right; exact List.mem_cons_of_mem _ h
    | false =>
      rcases ih best with h | h
      · left; exact h
      · right; exact List.mem_cons_of_mem _ h

theorem selectMin_mem (dt : Coord → DVal) (l : List Coord) (c : Coord)
    (h : selectMin dt l = some c) : c ∈ l := by
  cases l with
  | nil => simp [selectMin] at h
  | cons z zs =>
    simp only [selectMin, Option.some.injEq] at h
    subst h
    rcases selectMinGo_mem dt z zs with h | h
    · rw [h]; exact List.mem_cons_self ..
    · exact List.mem_cons_of_mem _ h

theorem selectMin_eq_none_iff (dt : Coord → DVal) (l : List Coord) :
    selectMin dt l = none ↔ l = [] := by
  cases l <;> simp [selectMin]

/-! ## Lemmas about priority-field values -/

theorem dvalLT_iff_key_lt (a b : DVal) : dvalLT a b = true ↔ key a < key b := by
  have htop : ((1000000 : Nat) : WithTop Nat) < ⊤ := WithTop.coe_lt_top _
  cases a <;> cases b <;>
    simp_all [dvalLT, key, WithTop.coe_lt_top, Nat.cast_lt]

theorem dvalSmall_iff (d : DVal) :
    dvalSmall d = true ↔ ∀ t : Nat, d = DVal.dist t → t < 1000000 := by
  cases d <;> simp [dvalSmall]

/-! ## List counting lemmas for the shrinking candidate pool -/

theorem length_filter_le_of_imp {α : Type} (l : List α) (p q : α → Bool)
    (h : ∀ x, q x = true → p x = true) :
    (l.filter q).length ≤ (l.filter p).length := by
  induction l with
  | nil => simp
  | cons x xs ih =>
    by_cases hq : q x = true
    · simp [List.filter_cons, hq, h x hq]
      omega
    · rw [Bool.not_eq_true] at hq
      by_cases hp : p x = true
      · simp [List.filter_cons, hq, hp]
        omega
      · rw [Bool.not_eq_true] at hp
        simp [List.filter_cons, hq, hp]
        exact ih

theorem length_filter_lt_of_imp {α : Type} (l : List α) (p q : α → Bool) (a : α)
    (h : ∀ x, q x = true → p x = true) (ha : a ∈ l) (hpa : p a = true) (hqa : q a = false) :
    (l.filter q).length < (l.filter p).length := by
  induction l with
  | nil => cases ha
  | cons x xs ih =>
    rcases List.mem_cons.mp ha with hx | hx
    · subst hx
      simp [List.filter_cons, hpa, hqa]
      exact Nat.lt_succ_of_le (length_filter_le_of_imp xs p q h)
    · by_cases hq : q x = true
      · simp [List.filter_cons, hq, h x hq]
        exact ih hx
      · rw [Bool.not_eq_true] at hq
        by_cases hp : p x = true
        · simp [List.filter_cons, hq, hp]
          exact Nat.lt_succ_of_lt (ih hx)
        · rw [Bool.not_eq_true] at hp
          simp [List.filter_cons, hq, hp]
          exact ih hx

/-! ## Lemmas about the packing loop -/

theorem packStep_eq_none_iff (shape : List Nat) (reff clearance : Int) (s : PackState) :
    packStep shape reff clearance s = none ↔ (allCoords shape).filter s.pool = [] := by
  rw [← selectMin_eq_none_iff s.dt]
  unfold packStep
  cases selectMin s.dt ((allCoords shape).filter s.pool) <;> simp

theorem packStep_some_elim (shape : List Nat) (reff clearance : Int) (s s2 : PackState)
    (h : packStep shape reff clearance s = some s2) :
    ∃ cen, selectMin s.dt ((allCoords shape).filter s.pool) = some cen ∧
      s2.im = insert_sphere s.im cen (reff - clearance) (-1) ∧
      s2.pool = insert_sphere s.pool cen (2 * reff) false ∧
      s2.dt = insert_sphere s.dt cen reff DVal.sent ∧
      s2.centers = s.centers ++ [cen] := by
  unfold packStep at h
  cases hsel : selectMin s.dt ((allCoords shape).filter s.pool) with
  | none => rw [hsel] at h; cases h
  | some cen =>
    rw [hsel] at h
    simp only [Option.some.injEq] at h
    exact ⟨cen, rfl, by rw [← h], by rw [← h], by rw [← h], by rw [← h]⟩

theorem packIter_succ_of_some (shape : List Nat) (reff clearance : Int) (n : Nat)
    (s s2 : PackState) (h : packStep shape reff clearance s = some s2) :
    packIter shape reff clearance (n + 1) s = packIter shape reff clearance n s2 := by
  simp [packIter, h]

theorem packIter_eq_of_none (shape : List Nat) (reff clearance : Int) (n : Nat)
    (s : PackState) (h : packStep shape reff clearance s = none) :
    packIter shape reff clearance n s = s := by
  cases n with
  | zero => rfl
  | succ m => simp [packIter, h]

/-- A voxel once marked with the inserted value `-1` keeps it: every later
insertion writes `-1` again or leaves the voxel alone. -/
theorem packIter_im_neg_persist (shape : List Nat) (reff clearance : Int) :
    ∀ (n : Nat) (s : PackState) (x : Coord), s.im x = -1 →
      (packIter shape reff clearance n s).im x = -1 := by
  intro n
  induction n with
  | zero => intro s x h; exact h
  | succ m ih =>
    intro s x h
    cases hstep : packStep shape reff clearance s with
    | none => rw [packIter_eq_of_none _ _ _ _ _ hstep]; exact h
    | some s2 =>
      rw [packIter_succ_of_some _ _ _ _ _ _ hstep]
      obtain ⟨cen, _, him, _, _, _⟩ := packStep_some_elim _ _ _ _ _ hstep
      apply ih
      rw [him]
      unfold insert_sphere
      split <;> simp [h]

/-- The exclusion invariant: no voxel still in the candidate pool lies inside
the exclusion ball of radius `R` around any already-accepted center. -/
def PoolAvoids (s : PackState) (R : Int) : Prop :=
  ∀ c ∈ s.centers, ∀ x : Coord, s.pool x = true → inBall x c R = false

/-- One step preserves the exclusion invariant and geometric separation: the
new center is chosen from the pool, hence outside every previous exclusion
ball, and the ball around it is removed from the pool. -/
theorem packStep_preserves (shape : List Nat) (reff clearance : Int) (s s2 : PackState)
    (hstep : packStep shape reff clearance s = some s2) (hreff : 0 ≤ 2 * reff)
    (hinv : PoolAvoids s (2 * reff)) :
    PoolAvoids s2 (2 * reff) ∧
    ∃ cen, s2.centers = s.centers ++ [cen] ∧ s.pool cen = true ∧
      ∀ c ∈ s.centers, (2 * reff).toNat ^ 2 < sqDist cen c := by
  obtain ⟨cen, hsel, him, hpool, hdt, hcen⟩ := packStep_some_elim _ _ _ _ _ hstep
  have hmem := selectMin_mem _ _ _ hsel
  have hpoolcen : s.pool cen = true := (List.mem_filter.mp hmem).2
  have hfar : ∀ c ∈ s.centers, (2 * reff).toNat ^ 2 < sqDist cen c := by
    intro c hc
    have := hinv c hc cen hpoolcen
    rw [not_inBall_iff _ _ _ hreff] at this
    exact this
  refine ⟨?_, cen, hcen, hpoolcen, hfar⟩
  intro c hc x hx
  rw [hpool] at hx
  unfold insert_sphere at hx
  by_cases hball : inBall x cen (2 * reff) = true
  · rw [if_pos hball] at hx; cases hx
  · rw [Bool.not_eq_true] at hball
    rw [if_neg (by simp [hball])] at hx
    rw [hcen] at hc
    rcases List.mem_append.mp hc with h | h
    · exact hinv c h x hx
    · simp only [List.mem_singleton] at h
      subst h
      exact hball

/-- Iterating the loop preserves the exclusion invariant and with it the
pairwise separation of accepted centers, and obeys the counting bounds: at
most one accepted center per iteration, and accepted centers plus remaining
eligible voxels never exceed the initial eligible count. -/
theorem packIter_invariant (shape : List Nat) (reff clearance : Int) (hreff : 0 ≤ 2 * reff) :
    ∀ (n : Nat) (s : PackState),
      PoolAvoids s (2 * reff) →
      s.centers.Pairwise (fun a b => (2 * reff).toNat ^ 2 < sqDist a b) →
      PoolAvoids (packIter shape reff clearance n s) (2 * reff) ∧
      (packIter shape reff clearance n s).centers.Pairwise
        (fun a b => (2 * reff).toNat ^ 2 < sqDist a b) ∧
      (packIter shape reff clearance n s).centers.length ≤ s.centers.length + n ∧
      (packIter shape reff clearance n s).centers.length +
          ((allCoords shape).filter (packIter shape reff clearance n s).pool).length ≤
        s.centers.length + ((allCoords shape).filter s.pool).length := by
  intro n
  induction n with
  | zero => intro s hinv hpw; exact ⟨hinv, hpw, by simp [packIter], by simp [packIter]⟩
  | succ m ih =>
    intro s hinv hpw
    cases hstep : packStep shape reff clearance s with
    | none =>
      rw [packIter_eq_of_none _ _ _ _ _ hstep]
      exact ⟨hinv, hpw, by omega, by omega⟩
    | some s2 =>
      rw [packIter_succ_of_some _ _ _ _ _ _ hstep]
      obtain ⟨hinv2, cen, hcen, hpoolcen, hfar⟩ :=
        packStep_preserves shape reff clearance s s2 hstep hreff hinv
      have hpw2 : s2.centers.Pairwise (fun a b => (2 * reff).toNat ^ 2 < sqDist a b) := by
        rw [hcen, List.pairwise_append]
        refine ⟨hpw, List.pairwise_singleton _ _, ?_⟩
        intro a ha b hb
        simp only [List.mem_singleton] at hb
        subst hb
        rw [sqDist_comm]
        exact hfar a ha
      obtain ⟨hfin, hfinpw, hlen, hcount⟩ := ih s2 hinv2 hpw2
      have hlen2 : s2.centers.length = s.centers.length + 1 := by
        rw [hcen]; simp
      have hdrop : ((allCoords shape).filter s2.pool).length <
          ((allCoords shape).filter s.pool).length := by
        obtain ⟨cen2, hsel, _, hpool, _, hcen2⟩ := packStep_some_elim _ _ _ _ _ hstep
        have : cen2 = cen := by
          rw [hcen2] at hcen
          exact List.append_inj_right hcen rfl |> List.cons_eq_cons.mp |>.1
        subst this
        have hmem := selectMin_mem _ _ _ hsel
        refine length_filter_lt_of_imp _ _ _ cen2 ?_ (List.mem_filter.mp hmem).1
          (List.mem_filter.mp hmem).2 ?_
        · intro x hx
          rw [hpool] at hx
          unfold insert_sphere at hx
          by_cases hb : inBall x cen2 (2 * reff) = true
          · rw [if_pos hb] at hx; cases hx
          · rwa [if_neg (by simp_all)] at hx
        · rw [hpool]
          unfold insert_sphere
          rw [if_pos (inBall_self cen2 _ hreff)]
      exact ⟨hfin, hfinpw, by omega, by omega⟩

/-- Through the whole loop, a voxel holds the inserted marker `-1` exactly
when it is covered by a sphere of insertion radius around an accepted center;
otherwise it keeps its pre-loop value. -/
theorem packIter_covered (shape : List Nat) (reff clearance : Int) (base : Coord → Int) :
    ∀ (n : Nat) (s : PackState),
      (∀ x, s.im x = if coveredBy s.centers (reff - clearance) x then -1 else base x) →
      ∀ x, (packIter shape reff clearance n s).im x =
        if coveredBy (packIter shape reff clearance n s).centers (reff - clearance) x then -1
        else base x := by
  intro n
  induction n with
  | zero => intro s h x; exact h x
  | succ m ih =>
    intro s h
    cases hstep : packStep shape reff clearance s with
    | none => rw [packIter_eq_of_none _ _ _ _ _ hstep]; exact h
    | some s2 =>
      rw [packIter_succ_of_some _ _ _ _ _ _ hstep]
      obtain ⟨cen, _, him, _, _, hcen⟩ := packStep_some_elim _ _ _ _ _ hstep
      apply ih
      intro x
      rw [him, hcen]
      unfold insert_sphere coveredBy
      rw [List.any_append]
      by_cases hb : inBall x cen (reff - clearance) = true
      · simp [hb]
      · rw [Bool.not_eq_true] at hb
        simp only [hb, if_false]
        rw [h x]
        unfold coveredBy
        simp [hb]

/-! ## Lemmas about the running maximum (site derivation) -/

theorem le_foldl_max (a : Int) (l : List Int) : a ≤ l.foldl max a := by
  induction l generalizing a with
  | nil => exact le_refl a
  | cons x xs ih => exact le_trans (le_max_left a x) (ih (max a x))

theorem mem_le_foldl_max (a b : Int) (l : List Int) (hb : b ∈ l) : b ≤ l.foldl max a := by
  induction l generalizing a with
  | nil => cases hb
  | cons x xs ih =>
    rcases List.mem_cons.mp hb with h | h
    · subst h
      exact le_trans (le_max_right a b) (le_foldl_max _ xs)
    · exact ih _ h

theorem foldl_max_eq_self (a : Int) (l : List Int) (h : ∀ b ∈ l, b ≤ a) :
    l.foldl max a = a := by
  induction l with
  | nil => rfl
  | cons x xs ih =>
    have hx : max a x = a := max_eq_left (h x (List.mem_cons_self ..))
    simp only [List.foldl_cons, hx]
    exact ih (fun b hb => h b (List.mem_cons_of_mem _ hb))

theorem foldl_max_eq_self_iff (a : Int) (l : List Int) :
    l.foldl max a = a ↔ ∀ b ∈ l, b ≤ a := by
  constructor
  · intro h b hb
    exact h ▸ mem_le_foldl_max a b l hb
  · exact foldl_max_eq_self a l

/-! ## The claims -/

/-- C2: for every input grid, attraction mask, radius `r` and protrusion `p`,
the initial candidate pool computed before the loop starts is exactly the set
of voxels that are not attraction points and whose distance-to-background on
the original grid is at least `r - p` (vacuously true when `r - p ≤ 0`,
otherwise: every background voxel is at squared distance at least
`(r - p)^2`). -/
theorem claim_C2 (shape : List Nat) (im sites : Coord → Bool) (r protrusion : Int) (x : Coord) :
    (initState shape im sites r protrusion).pool x = true ↔
      (sites x = false ∧
        (r - protrusion ≤ 0 ∨
          ∀ y ∈ allCoords shape, im y = false →
            (r - protrusion).toNat ^ 2 ≤ sqDist x y)) := by
  have hchar := distGE_minDistSq_iff x ((allCoords shape).filter (fun y => !im y)) (r - protrusion)
  constructor
  · intro h
    unfold initState initPool edtSq at h
    rw [Bool.and_eq_true] at h
    obtain ⟨h1, h2⟩ := h
    refine ⟨by simpa using h1, ?_⟩
    rcases hchar.mp h2 with h | h
    · exact Or.inl h
    · refine Or.inr (fun y hy hyim => ?_)
      exact h y (List.mem_filter.mpr ⟨hy, by simp [hyim]⟩)
  · intro ⟨h1, h2⟩
    unfold initState initPool edtSq
    rw [Bool.and_eq_true]
    refine ⟨by simp [h1], hchar.mpr ?_⟩
    rcases h2 with h | h
    · exact Or.inl h
    · refine Or.inr (fun y hy => ?_)
      have hm := List.mem_filter.mp hy
      exact h y hm.1 (by simpa using hm.2)

/-- C3: when the candidate pool is empty, the selection step yields no center
(the source's caught `IndexError`), the loop breaks without any error path,
and the state — in particular the domain grid with all spheres accepted so
far — is returned unchanged no matter how many iterations remain. -/
theorem claim_C3 (shape : List Nat) (reff clearance : Int) (n : Nat) (s : PackState)
    (h : ∀ x ∈ allCoords shape, s.pool x = false) :
    packStep shape reff clearance s = none ∧ packIter shape reff clearance n s = s := by
  have hnone : packStep shape reff clearance s = none := by
    rw [packStep_eq_none_iff, List.filter_eq_nil_iff]
    intro a ha
    simp [h a ha]
  exact ⟨hnone, packIter_eq_of_none _ _ _ _ _ hnone⟩

/-- Concrete state for the C3 witness: all-true grid whose attraction mask is
everywhere true, so no voxel is eligible and the pool starts empty. -/
def c3state : PackState := initState [2, 2] (fun _ => true) (fun _ => true) 5 0

theorem claim_C3_witness :
    (∀ x ∈ allCoords [2, 2], c3state.pool x = false) ∧
    (packStep [2, 2] 5 0 c3state = none ∧ packIter [2, 2] 5 0 3 c3state = c3state) :=
  ⟨by decide, claim_C3 [2, 2] 5 0 3 c3state (by decide)⟩

/-- C10: with `protrusion ≥ r`, every voxel of the inactive phase that is not
an attraction point belongs to the initial candidate pool: its
distance-to-background is `0` and the threshold `r - protrusion ≤ 0` is
vacuous, so spheres may be centered entirely outside the active phase. -/
theorem claim_C10 (shape : List Nat) (im sites : Coord → Bool) (r protrusion : Int) (x : Coord)
    (hp : r ≤ protrusion) (hx : x ∈ allCoords shape) (him : im x = false)
    (hs : sites x = false) :
    edtSq shape im x = some 0 ∧ (initState shape im sites r protrusion).pool x = true := by
  constructor
  · unfold edtSq
    have hxmem : x ∈ (allCoords shape).filter (fun y => !im y) :=
      List.mem_filter.mpr ⟨hx, by simp [him]⟩
    cases hm : minDistSq x ((allCoords shape).filter (fun y => !im y)) with
    | none =>
      rw [minDistSq_eq_none_iff] at hm
      rw [hm] at hxmem
      cases hxmem
    | some m =>
      have hle := minDistSq_le_of_mem x x _ m hxmem hm
      rw [sqDist_self] at hle
      have : m = 0 := Nat.le_zero.mp hle
      rw [this]
  · unfold initState initPool
    rw [Bool.and_eq_true]
    refine ⟨by simp [hs], ?_⟩
    unfold distGE
    rw [if_pos (by omega)]

theorem claim_C10_witness :
    ((1 : Int) ≤ 1 ∧ [0, 1] ∈ allCoords [2, 2] ∧
      (fun c : Coord => c == [0, 0]) [0, 1] = false ∧
      (fun _ : Coord => false) [0, 1] = false) ∧
    (edtSq [2, 2] (fun c => c == [0, 0]) [0, 1] = some 0 ∧
      (initState [2, 2] (fun c => c == [0, 0]) (fun _ => false) 1 1).pool [0, 1] = true) :=
  ⟨⟨by decide, by decide, by decide, by decide⟩,
    claim_C10 [2, 2] (fun c => c == [0, 0]) (fun _ => false) 1 1 [0, 1]
      (by decide) (by decide) (by decide) (by decide)⟩

/-- C1: with `clearance ≥ 0` and `|clearance| < r`, any two accepted sphere
centers are at Euclidean distance at least `2 * (r + clearance)` (stated on
exact squared distances): after each insertion the ball of radius
`2 * (r + clearance)` around the chosen center is removed from the pool, and
every later center is chosen from the pool. -/
theorem claim_C1 (shape : List Nat) (im sites : Coord → Bool) (r clearance protrusion : Int)
    (max_iter : Nat) (hc : 0 ≤ clearance) (hcr : |clearance| < r) :
    (pseudo_electrostatic_packing shape im sites r clearance protrusion max_iter).centers.Pairwise
      (fun a b => (2 * (r + clearance)).toNat ^ 2 ≤ sqDist a b) := by
  have hreff : 0 ≤ 2 * (r + clearance) := by
    have h1 : (0 : Int) ≤ |clearance| := abs_nonneg clearance
    linarith
  unfold pseudo_electrostatic_packing
  have h := packIter_invariant shape (r + clearance) clearance hreff max_iter
    (initState shape im sites r protrusion)
    (fun c hin => by cases hin) (List.Pairwise.nil)
  exact h.2.1.imp (fun hlt => le_of_lt hlt)

theorem claim_C1_witness :
    ((0 : Int) ≤ 0 ∧ |(0 : Int)| < 1) ∧
    (pseudo_electrostatic_packing [3, 3] (fun _ => true) (fun x => x == [1, 1])
        1 0 0 2).centers.Pairwise
      (fun a b => (2 * (1 + 0) : Int).toNat ^ 2 ≤ sqDist a b) :=
  ⟨⟨by decide, by decide⟩,
    claim_C1 [3, 3] (fun _ => true) (fun x => x == [1, 1]) 1 0 0 2 (by decide) (by decide)⟩

/-- C4: with `|clearance| < r`, the number of accepted spheres is at most
`max_iter` and at most the number of voxels eligible in the initial candidate
pool, and no center is ever selected twice: each iteration removes at least
the selected center itself from the pool. -/
theorem claim_C4 (shape : List Nat) (im sites : Coord → Bool) (r clearance protrusion : Int)
    (max_iter : Nat) (hcr : |clearance| < r) :
    (pseudo_electrostatic_packing shape im sites r clearance protrusion max_iter).centers.length
        ≤ max_iter ∧
    (pseudo_electrostatic_packing shape im sites r clearance protrusion max_iter).centers.length
        ≤ ((allCoords shape).filter (initState shape im sites r protrusion).pool).length ∧
    (pseudo_electrostatic_packing shape im sites r clearance protrusion max_iter).centers.Nodup := by
  have hreff : 0 ≤ 2 * (r + clearance) := by
    have h1 : -clearance ≤ |clearance| := neg_le_abs clearance
    linarith
  unfold pseudo_electrostatic_packing
  obtain ⟨_, hpw, hlen, hcount⟩ := packIter_invariant shape (r + clearance) clearance hreff
    max_iter (initState shape im sites r protrusion)
    (fun c hin => by cases hin) (List.Pairwise.nil)
  have hinit : (initState shape im sites r protrusion).centers = [] := rfl
  rw [hinit] at hlen hcount
  simp only [List.length_nil, Nat.zero_add] at hlen hcount
  refine ⟨hlen, by omega, ?_⟩
  refine hpw.imp ?_
  intro a b hab heq
  subst heq
  rw [sqDist_self] at hab
  exact Nat.not_lt_zero _ hab

theorem claim_C4_witness :
    (|(0 : Int)| < 1) ∧
    ((pseudo_electrostatic_packing [3, 3] (fun _ => true) (fun x => x == [1, 1])
        1 0 0 2).centers.length ≤ 2 ∧
      (pseudo_electrostatic_packing [3, 3] (fun _ => true) (fun x => x == [1, 1])
          1 0 0 2).centers.length ≤
        ((allCoords [3, 3]).filter
          (initState [3, 3] (fun _ => true) (fun x => x == [1, 1]) 1 0).pool).length ∧
      (pseudo_electrostatic_packing [3, 3] (fun _ => true) (fun x => x == [1, 1])
          1 0 0 2).centers.Nodup) :=
  ⟨by decide,
    claim_C4 [3, 3] (fun _ => true) (fun x => x == [1, 1]) 1 0 0 2 (by decide)⟩

/-- C8: the returned grid holds the distinguished marker `-1` exactly at the
voxels covered by an accepted sphere (of insertion radius `r`), untouched
voxels keep their original phase encoding (`1` for active, `0` for other),
and the marker is distinct from both phase values — the domain grid is
embedded with an element type wide enough for the marker (`insert_sphere` is
modelled from the spec and writes the fill value exactly, never truncated). -/
theorem claim_C8 (shape : List Nat) (im sites : Coord → Bool) (r clearance protrusion : Int)
    (max_iter : Nat) (x : Coord) :
    ((pseudo_electrostatic_packing shape im sites r clearance protrusion max_iter).im x =
      if coveredBy
          (pseudo_electrostatic_packing shape im sites r clearance protrusion max_iter).centers
          r x
        then -1 else imZ im x) ∧
    (imZ im x = 0 ∨ imZ im x = 1) ∧ (-1 : Int) ≠ 0 ∧ (-1 : Int) ≠ 1 := by
  refine ⟨?_, ?_, by decide, by decide⟩
  · have hrad : r + clearance - clearance = r := by ring
    have h := packIter_covered shape (r + clearance) clearance (imZ im) max_iter
      (initState shape im sites r protrusion) ?_ x
    · rw [hrad] at h
      exact h
    · intro y
      rw [show (initState shape im sites r protrusion).centers = [] from rfl]
      simp [coveredBy, initState]
  · unfold imZ
    by_cases h : im x = true <;> simp [h]

/-- C9 as stated is false on the code: the site deriver marks voxels whose
smoothed value equals the neighborhood maximum (`maximum_filter(dt2) == dt2`),
which marks plateau voxels too.  On a 1×2 grid with a constant field, both
voxels are marked although each has an equal-valued distinct neighbor, so
neither is a strict local maximum. -/
theorem claim_C9_counterexample :
    ¬ (∀ x ∈ allCoords [1, 2],
        (derivedSites [1, 2] 1 (fun _ => (0 : Int)) (fun _ => true) x = true ↔
          ((fun _ : Coord => true) x = true ∧
            ∀ y ∈ neighborhood [1, 2] 1 x, y ≠ x →
              (fun _ : Coord => (0 : Int)) y < (fun _ : Coord => (0 : Int)) x))) := by
  decide

/-- C9 amended: when no sites are supplied, the derived attraction mask marks
exactly the active-phase voxels whose (smoothed) field value is greater than
or equal to every value in the spherical structuring neighborhood — non-strict
local maxima, so voxels on a constant plateau are marked as well.  (The
smoothing filter is an external floating-point collaborator, so the smoothed
field enters as a parameter.) -/
theorem claim_C9 (shape : List Nat) (r : Int) (f : Coord → Int) (im : Coord → Bool) (x : Coord) :
    derivedSites shape r f im x = true ↔
      (im x = true ∧ ∀ y ∈ neighborhood shape r x, f y ≤ f x) := by
  unfold derivedSites maximum_filter
  rw [Bool.and_eq_true, beq_iff_eq, and_comm]
  constructor
  · intro ⟨h1, h2⟩
    refine ⟨h1, fun y hy => ?_⟩
    rw [← h2]
    exact mem_le_foldl_max _ _ _ (List.mem_map_of_mem f hy)
  · intro ⟨h1, h2⟩
    refine ⟨h1, ?_⟩
    apply foldl_max_eq_self
    intro b hb
    obtain ⟨y, hy, rfl⟩ := List.mem_map.mp hb
    exact h2 y hy

/-- Concrete start state for C6: 3×3 all-active grid, attraction site at the
center, `r = 1` and `protrusion = 0`; the call supplies `clearance = 1`, so
`|clearance| ≥ r` — invalid per the spec. -/
def c6start : PackState := initState [3, 3] (fun _ => true) (fun x => x == [1, 1]) 1 0

/-- The state after the first loop iteration of the invalid C6 call
(`reff = r + clearance = 2`): the selection picks `[0,1]`, the first voxel at
distance 1 from the site. -/
def c6next : PackState :=
  { im := insert_sphere c6start.im [0, 1] (2 - 1) (-1)
    pool := insert_sphere c6start.pool [0, 1] (2 * 2) false
    dt := insert_sphere c6start.dt [0, 1] 2 DVal.sent
    centers := c6start.centers ++ [[0, 1]] }

/-- C6 as stated is false on the code: the source performs no parameter
validation.  A call with `clearance = r = 1` (so `|clearance| < r` fails) is
not rejected: the loop runs and inserts a sphere, overwriting voxel `[0,1]`
(originally active, encoded `1`) with the marker `-1`. -/
theorem claim_C6_counterexample :
    ¬ (|(1 : Int)| < 1) ∧
    (pseudo_electrostatic_packing [3, 3] (fun _ => true) (fun x => x == [1, 1])
        1 1 0 1).im [0, 1] = -1 ∧
    imZ (fun _ => true) [0, 1] = 1 :=
  ⟨by decide, by decide, by decide⟩

/-- C6 amended: the source performs no validation of `r`, `clearance`,
`protrusion` or shapes; a call with invalid parameters (here
`clearance = r = 1`) proceeds into the packing loop and performs insertions —
for every `max_iter ≥ 1` the invalid call above has inserted the marker at
voxel `[0,1]`. -/
theorem claim_C6 (n : Nat) (hn : 1 ≤ n) :
    (pseudo_electrostatic_packing [3, 3] (fun _ => true) (fun x => x == [1, 1])
        1 1 0 n).im [0, 1] = -1 := by
  obtain ⟨m, rfl⟩ : ∃ m, n = m + 1 := ⟨n - 1, by omega⟩
  show (packIter [3, 3] 2 1 (m + 1) c6start).im [0, 1] = -1
  rw [packIter_succ_of_some [3, 3] 2 1 m c6start c6next rfl]
  apply packIter_im_neg_persist
  decide

theorem claim_C6_witness :
    1 ≤ 1 ∧
    (pseudo_electrostatic_packing [3, 3] (fun _ => true) (fun x => x == [1, 1])
        1 1 0 1).im [0, 1] = -1 :=
  ⟨by decide, claim_C6 1 (by decide)⟩

set_option maxRecDepth 10000 in
/-- C7 as stated is false on the code: the sentinel written into the priority
field is the fixed constant `1000.0`, which is not "far larger than any real
distance" on every grid size.  On a 1×1002 grid with the single attraction
site at `[0,0]`, after the first insertion (center `[0,1]`, `r = 2`,
`clearance = 0`) the deprioritized voxel `[0,1]` holds the sentinel while
voxel `[0,1001]` still holds the real distance `1001` (squared: `1002001`),
and `1000 < 1001`: the sentinel is not strictly larger than every real
distance present in the field. -/
theorem claim_C7_counterexample :
    ¬ (∀ cen ∈ (pseudo_electrostatic_packing [1, 1002] (fun _ => true) (fun x => x == [0, 0])
          2 0 0 1).centers,
        ∀ v ∈ allCoords [1, 1002], inBall v cen 2 = true →
          ∀ y ∈ allCoords [1, 1002],
            ((pseudo_electrostatic_packing [1, 1002] (fun _ => true) (fun x => x == [0, 0])
                2 0 0 1).dt y).isReal = true →
              key ((pseudo_electrostatic_packing [1, 1002] (fun _ => true) (fun x => x == [0, 0])
                  2 0 0 1).dt y) <
                key ((pseudo_electrostatic_packing [1, 1002] (fun _ => true)
                    (fun x => x == [0, 0]) 2 0 0 1).dt v)) := by
  intro h
  exact absurd
    (h [0, 1] (by decide) [0, 1] (by decide) (by decide) [0, 1001] (by decide) (by decide))
    (by decide)

/-- C7 amended: after an insertion every voxel within the deprioritization
ball of radius `r + clearance` around the chosen center holds the sentinel
value `1000.0`; provided every real distance in the priority field before the
insertion is below `1000` (true on small grids but not on every grid size),
the sentinel is strictly larger than every real distance value present in the
field after the insertion. -/
theorem claim_C7 (shape : List Nat) (reff clearance : Int) (s s2 : PackState) (cen : Coord)
    (hsel : selectMin s.dt ((allCoords shape).filter s.pool) = some cen)
    (hstep : packStep shape reff clearance s = some s2)
    (hsmall : ∀ y ∈ allCoords shape, dvalSmall (s.dt y) = true)
    (v : Coord) (hv : inBall v cen reff = true) :
    s2.dt v = DVal.sent ∧
    ∀ y ∈ allCoords shape, (s2.dt y).isReal = true → key (s2.dt y) < key (s2.dt v) := by
  obtain ⟨cen2, hsel2, _, _, hdt, _⟩ := packStep_some_elim _ _ _ _ _ hstep
  have hcen : cen2 = cen := by
    have := hsel.symm.trans hsel2
    exact (Option.some.injEq _ _ ▸ this).symm
  subst hcen
  have hvs : s2.dt v = DVal.sent := by
    rw [hdt]
    exact insert_sphere_of_inBall _ _ _ _ _ hv
  refine ⟨hvs, fun y hy hreal => ?_⟩
  rw [hvs]
  rw [hdt] at hreal ⊢
  unfold insert_sphere at hreal ⊢
  by_cases hb : inBall y cen2 reff = true
  · rw [if_pos hb] at hreal
    cases hreal
  · rw [Bool.not_eq_true] at hb
    rw [if_neg (by simp [hb])] at hreal ⊢
    cases hd : s.dt y with
    | dist t =>
      have ht : t < 1000000 := (dvalSmall_iff (s.dt y)).mp (hsmall y hy) t hd
      simp only [key]
      exact_mod_cast ht
    | infin => rw [hd] at hreal; cases hreal
    | sent => rw [hd] at hreal; cases hreal

/-- Concrete start state for the C7 witness: 3×3 all-active grid, attraction
site at the center, `r = 1`, `clearance = 0`; every real distance in the
initial priority field is at most `sqrt 8 < 1000`. -/
def c7start : PackState := initState [3, 3] (fun _ => true) (fun x => x == [1, 1]) 1 0

/-- The state after the first iteration of the C7 witness run (`reff = 1`). -/
def c7next : PackState :=
  { im := insert_sphere c7start.im [0, 1] (1 - 0) (-1)
    pool := insert_sphere c7start.pool [0, 1] (2 * 1) false
    dt := insert_sphere c7start.dt [0, 1] 1 DVal.sent
    centers := c7start.centers ++ [[0, 1]] }

theorem claim_C7_witness :
    (selectMin c7start.dt ((allCoords [3, 3]).filter c7start.pool) = some [0, 1] ∧
      (∀ y ∈ allCoords [3, 3], dvalSmall (c7start.dt y) = true) ∧
      inBall [0, 1] [0, 1] 1 = true) ∧
    (c7next.dt [0, 1] = DVal.sent ∧
      ∀ y ∈ allCoords [3, 3], (c7next.dt y).isReal = true →
        key (c7next.dt y) < key (c7next.dt [0, 1])) :=
  ⟨⟨by decide, by decide, by decide⟩,
    claim_C7 [3, 3] 1 0 c7start c7next [0, 1] (by decide) rfl (by decide) [0, 1] (by decide)⟩

end Porespy
